import Mathlib

/-!
Verification of the checkers rules engine.

Shallow embedding of the Rust checkers engine (`src/board.rs`, `src/game.rs`,
`src/lib.rs`).  Pure functions become Lean functions; the mutation of the
engine in `move_piece` becomes explicit state passing (the function returns
the new engine together with a status).  `usize` values are modelled as `Nat`
(all arithmetic on the relevant paths is guarded against underflow exactly as
in the source, where the guards precede the subtractions); the `i32`
arguments of the foreign boundary are modelled as `Int` with the `as usize`
cast made explicit.  The `unwrap` in `move_piece` is modelled by a dedicated
`panic` status so that its unreachability can be proved rather than assumed.
-/

/-- Embeds `PieceColor` from src/board.rs. -/
inductive PieceColor where
  | White
  | Black
deriving DecidableEq

/-- Embeds `GamePiece` from src/board.rs. -/
structure GamePiece where
  color : PieceColor
  crowned : Bool
deriving DecidableEq

/-- Embeds `GamePiece::new`. -/
def GamePiece.new (color : PieceColor) : GamePiece :=
  { color := color, crowned := false }

/-- Embeds the static method `GamePiece::crowned` (renamed: `crowned` is the
field name in Lean). -/
def GamePiece.crownedOf (piece : GamePiece) : GamePiece :=
  { color := piece.color, crowned := true }

/-- Embeds the tuple struct `Coordinate(usize, usize)` from src/board.rs. -/
structure Coordinate where
  x : Nat
  y : Nat
deriving DecidableEq

/-- Embeds `Coordinate::on_board`. -/
def Coordinate.on_board (c : Coordinate) : Bool :=
  decide (c.x ≤ 7 ∧ c.y ≤ 7)

/-- Embeds `Coordinate::jump_targets_from`: the pushes onto the vector, in
source order, with the underflow guards of the source. -/
def Coordinate.jump_targets_from (c : Coordinate) : List Coordinate :=
  (if 2 ≤ c.y then [⟨c.x + 2, c.y - 2⟩] else [])
    ++ [⟨c.x + 2, c.y + 2⟩]
    ++ (if 2 ≤ c.x ∧ 2 ≤ c.y then [⟨c.x - 2, c.y - 2⟩] else [])
    ++ (if 2 ≤ c.x then [⟨c.x - 2, c.y + 2⟩] else [])

/-- Embeds `Coordinate::move_targets_from`: the pushes onto the vector, in
source order, with the underflow guards of the source. -/
def Coordinate.move_targets_from (c : Coordinate) : List Coordinate :=
  (if 1 ≤ c.x then [⟨c.x - 1, c.y + 1⟩] else [])
    ++ [⟨c.x + 1, c.y + 1⟩]
    ++ (if 1 ≤ c.y then [⟨c.x + 1, c.y - 1⟩] else [])
    ++ (if 1 ≤ c.x ∧ 1 ≤ c.y then [⟨c.x - 1, c.y - 1⟩] else [])

/-- Embeds `Move` from src/board.rs (`from` and `to` are Lean keywords, hence `from_`, `to_`). -/
structure Move where
  from_ : Coordinate
  to_ : Coordinate
deriving DecidableEq

/-- The `[[Option<GamePiece>; 8]; 8]` board array, indexed `board x y` as
`board[x][y]` in the source. -/
abbrev Board := Fin 8 → Fin 8 → Option GamePiece

/-- Read `board[x][y]` with `usize` indices; the source only indexes with
values already checked (or generated) in range, which the theorems below
establish for every path used. -/
def bget (b : Board) (x y : Nat) : Option GamePiece :=
  if hx : x < 8 then
    if hy : y < 8 then b ⟨x, hx⟩ ⟨y, hy⟩ else none
  else none

/-- Write `board[x][y] = v`. -/
def bset (b : Board) (x y : Nat) (v : Option GamePiece) : Board :=
  fun i j => if i.val = x ∧ j.val = y then v else b i j

/-- Embeds the `GameEngine` struct from src/game.rs.  The `u32` move counter
is modelled as `Nat`. -/
structure GameEngine where
  board : Board
  current_turn : PieceColor
  move_count : Nat
deriving DecidableEq

/-- Embeds `MoveResult` from src/game.rs. -/
structure MoveResult where
  move_made : Move
  crowned : Bool
deriving DecidableEq

/-- Outcome of `GameEngine::move_piece`: `ok` embeds `Ok(MoveResult)`,
`illegal` embeds `Err(())`, and `panic` embeds the `unwrap` panic on an empty
source square (proved unreachable below). -/
inductive MoveStatus where
  | ok (result : MoveResult)
  | illegal
  | panic
deriving DecidableEq

/-- Embeds `GameEngine::initialize_pieces`: the two zipped coordinate lists
of the source, white placed first, then black. -/
def GameEngine.initialize_pieces (b : Board) : Board :=
  let afterWhite :=
    (List.zip [1, 3, 5, 7, 0, 2, 4, 6, 1, 3, 5, 7] [0, 0, 0, 0, 1, 1, 1, 1, 2, 2, 2, 2]).foldl
      (fun bb xy => bset bb xy.1 xy.2 (some (GamePiece.new PieceColor.White))) b
  (List.zip [0, 2, 4, 6, 1, 3, 5, 7, 0, 2, 4, 6] [5, 5, 5, 5, 6, 6, 6, 6, 7, 7, 7, 7]).foldl
    (fun bb xy => bset bb xy.1 xy.2 (some (GamePiece.new PieceColor.Black))) afterWhite

/-- Embeds `GameEngine::new`. -/
def GameEngine.new : GameEngine :=
  { board := GameEngine.initialize_pieces (fun _ _ => none)
    current_turn := PieceColor.Black
    move_count := 0 }

/-- Embeds `GameEngine::get_piece` (`Result<Option<GamePiece>, ()>`). -/
def GameEngine.get_piece (e : GameEngine) (coord : Coordinate) : Except Unit (Option GamePiece) :=
  if coord.x ≤ 7 ∧ coord.y ≤ 7 then Except.ok (bget e.board coord.x coord.y)
  else Except.error ()

/-- Embeds `GameEngine::advance_turn`. -/
def GameEngine.advance_turn (e : GameEngine) : GameEngine :=
  { e with
    current_turn := if e.current_turn = PieceColor.Black then PieceColor.White else PieceColor.Black
    move_count := e.move_count + 1 }

/-- Embeds `GameEngine::should_crown` (the unused `&self` receiver is
dropped). -/
def GameEngine.should_crown (piece : GamePiece) (coord : Coordinate) : Bool :=
  decide ((coord.y = 0 ∧ piece.color = PieceColor.Black)
    ∨ (coord.y = 7 ∧ piece.color = PieceColor.White))

/-- Embeds `GameEngine::crown_piece` (mutation of `self` becomes returning
the new engine alongside the `bool` result). -/
def GameEngine.crown_piece (e : GameEngine) (coord : Coordinate) : GameEngine × Bool :=
  match bget e.board coord.x coord.y with
  | some piece =>
      ({ e with board := bset e.board coord.x coord.y (some (GamePiece.crownedOf piece)) }, true)
  | none => (e, false)

/-- Embeds `GameEngine::is_crowned`. -/
def GameEngine.is_crowned (e : GameEngine) (coord : Coordinate) : Bool :=
  match bget e.board coord.x coord.y with
  | some piece => piece.crowned
  | none => false

/-- Embeds `GameEngine::midpiece_coordinate` (the unused `&self` receiver is
dropped); the four guarded branches of the source, in source order. -/
def GameEngine.midpiece_coordinate (from_x from_y to_x to_y : Nat) : Option Coordinate :=
  if to_x = from_x + 2 ∧ to_y = from_y + 2 then some ⟨from_x + 1, from_y + 1⟩
  else if 2 ≤ from_x ∧ 2 ≤ from_y ∧ to_x = from_x - 2 ∧ to_y = from_y - 2 then
    some ⟨from_x - 1, from_y - 1⟩
  else if 2 ≤ from_x ∧ to_x = from_x - 2 ∧ to_y = from_y + 2 then some ⟨from_x - 1, from_y + 1⟩
  else if 2 ≤ from_y ∧ to_x = from_x + 2 ∧ to_y = from_y - 2 then some ⟨from_x + 1, from_y - 1⟩
  else none

/-- Embeds `GameEngine::midpiece`. -/
def GameEngine.midpiece (e : GameEngine) (from_x from_y to_x to_y : Nat) : Option GamePiece :=
  match GameEngine.midpiece_coordinate from_x from_y to_x to_y with
  | some c => bget e.board c.x c.y
  | none => none

/-- Embeds `GameEngine::valid_jump`. -/
def GameEngine.valid_jump (e : GameEngine) (moving_piece : GamePiece) (f t : Coordinate) : Bool :=
  if !t.on_board || !f.on_board then false
  else
    match e.midpiece f.x f.y t.x t.y with
    | some piece => if piece.color ≠ moving_piece.color then true else false
    | none => false

/-- Embeds `GameEngine::valid_move`; the cascade of `if`s setting `valid` is
written as the equivalent disjunction, in source order. -/
def GameEngine.valid_move (e : GameEngine) (moving_piece : GamePiece) (f t : Coordinate) : Bool :=
  if !t.on_board || !f.on_board then false
  else
    match bget e.board t.x t.y with
    | some _ => false
    | none =>
        decide ((f.y < t.y ∧ moving_piece.color = PieceColor.White)
          ∨ (t.y < f.y ∧ moving_piece.color = PieceColor.Black)
          ∨ (f.y < t.y ∧ moving_piece.color = PieceColor.Black ∧ moving_piece.crowned = true)
          ∨ (t.y < f.y ∧ moving_piece.color = PieceColor.White ∧ moving_piece.crowned = true))

/-- Embeds `GameEngine::valid_moves_from`: valid jumps first (in jump-target
order), then valid simple moves (in move-target order). -/
def GameEngine.valid_moves_from (e : GameEngine) (loc : Coordinate) : List Move :=
  match bget e.board loc.x loc.y with
  | some piece =>
      ((loc.jump_targets_from.filter (fun coord => e.valid_jump piece loc coord)).map
          (fun coord => { from_ := loc, to_ := coord }))
        ++ ((loc.move_targets_from.filter (fun coord => e.valid_move piece loc coord)).map
          (fun coord => { from_ := loc, to_ := coord }))
  | none => []

/-- Embeds `GameEngine::legal_moves`: outer loop `col` (x) over 0..8, inner
loop `row` (y) over 0..8. -/
def GameEngine.legal_moves (e : GameEngine) : List Move :=
  (List.range 8).flatMap fun col =>
    (List.range 8).flatMap fun row =>
      match bget e.board col row with
      | some piece =>
          if piece.color = e.current_turn then e.valid_moves_from ⟨col, row⟩ else []
      | none => []

/-- Embeds `GameEngine::move_piece`.  Mutation of `self` becomes returning
the updated engine; the rejected branch returns the engine unchanged (the
source returns `Err(())` before any mutation), and the `unwrap` on the source
square becomes the `panic` status. -/
def GameEngine.move_piece (e : GameEngine) (move_desired : Move) : GameEngine × MoveStatus :=
  if move_desired ∈ e.legal_moves then
    match bget e.board move_desired.from_.x move_desired.from_.y with
    | none => (e, MoveStatus.panic)
    | some piece =>
        let cleared :=
          match GameEngine.midpiece_coordinate move_desired.from_.x move_desired.from_.y
              move_desired.to_.x move_desired.to_.y with
          | some c => bset e.board c.x c.y none
          | none => e.board
        let placed := bset cleared move_desired.to_.x move_desired.to_.y (some piece)
        let removed := bset placed move_desired.from_.x move_desired.from_.y none
        let moved : GameEngine := { e with board := removed }
        let crownedPair :=
          if GameEngine.should_crown piece move_desired.to_ then
            ((moved.crown_piece move_desired.to_).1, true)
          else (moved, false)
        (crownedPair.1.advance_turn,
          MoveStatus.ok { move_made := move_desired, crowned := crownedPair.2 })
  else (e, MoveStatus.illegal)

/-- Embeds the `as usize` cast of an `i32` argument at the foreign boundary
(sign extension to 64 bits, reinterpreted unsigned). -/
def i32ToUsize (n : Int) : Nat := (n % (2 ^ 64 : Int)).toNat

/-- Embeds `impl Into<i32> for GamePiece` from src/lib.rs: the bit-flag sum
Black=1 / White=2, plus 4 when crowned. -/
def GamePiece.intoI32 (p : GamePiece) : Int :=
  (if p.color = PieceColor.Black then 1 else if p.color = PieceColor.White then 2 else 0)
    + (if p.crowned then 4 else 0)

/-- Embeds the exported `get_piece` function from src/lib.rs. -/
def lib_get_piece (e : GameEngine) (x_coord y_coord : Int) : Int :=
  match e.get_piece ⟨i32ToUsize x_coord, i32ToUsize y_coord⟩ with
  | Except.ok (some piece) => piece.intoI32
  | Except.ok none => -1
  | Except.error _ => -1

/-! Basic board-cell lemmas -/

lemma bget_bset_same (b : Board) (x y : Nat) (v : Option GamePiece) (hx : x < 8) (hy : y < 8) :
    bget (bset b x y v) x y = v := by
  simp [bget, bset, hx, hy]

lemma bget_bset_ne (b : Board) (x y : Nat) (v : Option GamePiece) (i j : Nat)
    (h : ¬(i = x ∧ j = y)) : bget (bset b x y v) i j = bget b i j := by
  simp only [bget, bset]
  split
  · split
    · simp [h]
    · rfl
  · rfl

lemma mem_if_singleton {α : Type} {P : Prop} [Decidable P] {a b : α} :
    (a ∈ if P then [b] else ([] : List α)) ↔ P ∧ a = b := by
  split <;> simp_all

lemma on_board_lt {c : Coordinate} (h : c.on_board = true) : c.x < 8 ∧ c.y < 8 := by
  simp only [Coordinate.on_board, decide_eq_true_eq] at h
  omega

/-! Target-list membership, in component form -/

lemma mem_move_targets {f t : Coordinate} (h : t ∈ f.move_targets_from) :
    (1 ≤ f.x ∧ t.x = f.x - 1 ∧ t.y = f.y + 1) ∨ (t.x = f.x + 1 ∧ t.y = f.y + 1)
      ∨ (1 ≤ f.y ∧ t.x = f.x + 1 ∧ t.y = f.y - 1)
      ∨ (1 ≤ f.x ∧ 1 ≤ f.y ∧ t.x = f.x - 1 ∧ t.y = f.y - 1) := by
  obtain ⟨tx, ty⟩ := t
  simp only [Coordinate.move_targets_from, List.mem_append, mem_if_singleton,
    List.mem_singleton, Coordinate.mk.injEq] at h
  dsimp only
  tauto

lemma mem_jump_targets {f t : Coordinate} (h : t ∈ f.jump_targets_from) :
    (2 ≤ f.y ∧ t.x = f.x + 2 ∧ t.y = f.y - 2) ∨ (t.x = f.x + 2 ∧ t.y = f.y + 2)
      ∨ (2 ≤ f.x ∧ 2 ≤ f.y ∧ t.x = f.x - 2 ∧ t.y = f.y - 2)
      ∨ (2 ≤ f.x ∧ t.x = f.x - 2 ∧ t.y = f.y + 2) := by
  obtain ⟨tx, ty⟩ := t
  simp only [Coordinate.jump_targets_from, List.mem_append, mem_if_singleton,
    List.mem_singleton, Coordinate.mk.injEq] at h
  dsimp only
  tauto

lemma move_target_ne_x {f t : Coordinate} (h : t ∈ f.move_targets_from) : t.x ≠ f.x := by
  have := mem_move_targets h
  omega

lemma jump_target_ne_x {f t : Coordinate} (h : t ∈ f.jump_targets_from) : t.x ≠ f.x := by
  have := mem_jump_targets h
  omega

/-! Midpoint-coordinate lemmas -/

lemma midpiece_coordinate_cases {fx fy tx ty : Nat} {c : Coordinate}
    (h : GameEngine.midpiece_coordinate fx fy tx ty = some c) :
    (tx = fx + 2 ∧ ty = fy + 2 ∧ c.x = fx + 1 ∧ c.y = fy + 1)
      ∨ (2 ≤ fx ∧ 2 ≤ fy ∧ tx = fx - 2 ∧ ty = fy - 2 ∧ c.x = fx - 1 ∧ c.y = fy - 1)
      ∨ (2 ≤ fx ∧ tx = fx - 2 ∧ ty = fy + 2 ∧ c.x = fx - 1 ∧ c.y = fy + 1)
      ∨ (2 ≤ fy ∧ tx = fx + 2 ∧ ty = fy - 2 ∧ c.x = fx + 1 ∧ c.y = fy - 1) := by
  unfold GameEngine.midpiece_coordinate at h
  split_ifs at h with h1 h2 h3 h4
  · injection h with h5
    subst h5
    exact Or.inl ⟨h1.1, h1.2, rfl, rfl⟩
  · injection h with h5
    subst h5
    exact Or.inr (Or.inl ⟨h2.1, h2.2.1, h2.2.2.1, h2.2.2.2, rfl, rfl⟩)
  · injection h with h5
    subst h5
    exact Or.inr (Or.inr (Or.inl ⟨h3.1, h3.2.1, h3.2.2, rfl, rfl⟩))
  · injection h with h5
    subst h5
    exact Or.inr (Or.inr (Or.inr ⟨h4.1, h4.2.1, h4.2.2, rfl, rfl⟩))

lemma midpiece_coordinate_x_ne {fx fy tx ty : Nat} {c : Coordinate}
    (h : GameEngine.midpiece_coordinate fx fy tx ty = some c) : c.x ≠ fx ∧ c.x ≠ tx := by
  have := midpiece_coordinate_cases h
  omega

lemma midpiece_coordinate_bounds {fx fy tx ty : Nat} {c : Coordinate}
    (h : GameEngine.midpiece_coordinate fx fy tx ty = some c)
    (hf : fx ≤ 7 ∧ fy ≤ 7) (ht : tx ≤ 7 ∧ ty ≤ 7) : c.x < 8 ∧ c.y < 8 := by
  have := midpiece_coordinate_cases h
  omega

lemma midpiece_coordinate_tx_ne {fx fy tx ty : Nat} {c : Coordinate}
    (h : GameEngine.midpiece_coordinate fx fy tx ty = some c) : tx ≠ fx := by
  have := midpiece_coordinate_cases h
  omega

lemma midpiece_coordinate_of_move_target {f t : Coordinate} (h : t ∈ f.move_targets_from) :
    GameEngine.midpiece_coordinate f.x f.y t.x t.y = none := by
  have h2 := mem_move_targets h
  unfold GameEngine.midpiece_coordinate
  split_ifs <;> first | rfl | (exfalso; omega)

/-! Validator characterizations -/

lemma valid_jump_iff (e : GameEngine) (p : GamePiece) (f t : Coordinate) :
    e.valid_jump p f t = true ↔
      f.on_board = true ∧ t.on_board = true ∧
        ∃ c q, GameEngine.midpiece_coordinate f.x f.y t.x t.y = some c ∧
          bget e.board c.x c.y = some q ∧ q.color ≠ p.color := by
  unfold GameEngine.valid_jump GameEngine.midpiece
  cases hf : f.on_board <;> cases ht : t.on_board <;> simp
  cases hc : GameEngine.midpiece_coordinate f.x f.y t.x t.y with
  | none => simp
  | some c =>
      cases hq : bget e.board c.x c.y with
      | none => simp [hq]
      | some q =>
          by_cases hcol : q.color = p.color <;> simp [hq, hcol]

lemma valid_move_iff (e : GameEngine) (p : GamePiece) (f t : Coordinate) :
    e.valid_move p f t = true ↔
      f.on_board = true ∧ t.on_board = true ∧ bget e.board t.x t.y = none ∧
        ((f.y < t.y ∧ (p.color = PieceColor.White ∨ (p.color = PieceColor.Black ∧ p.crowned = true)))
          ∨ (t.y < f.y ∧ (p.color = PieceColor.Black ∨ (p.color = PieceColor.White ∧ p.crowned = true)))) := by
  unfold GameEngine.valid_move
  cases hf : f.on_board <;> cases ht : t.on_board <;> simp
  cases hb : bget e.board t.x t.y with
  | some q => simp
  | none => simp; tauto

/-! Membership in generated move lists -/

lemma mem_valid_moves_from {e : GameEngine} {loc : Coordinate} {m : Move} {p : GamePiece}
    (hp : bget e.board loc.x loc.y = some p) :
    m ∈ e.valid_moves_from loc ↔
      m.from_ = loc ∧
        ((m.to_ ∈ loc.jump_targets_from ∧ e.valid_jump p loc m.to_ = true)
          ∨ (m.to_ ∈ loc.move_targets_from ∧ e.valid_move p loc m.to_ = true)) := by
  obtain ⟨mf, mt⟩ := m
  unfold GameEngine.valid_moves_from
  rw [hp]
  simp only [List.mem_append, List.mem_map, List.mem_filter, Move.mk.injEq]
  constructor
  · rintro (⟨c, ⟨hc, hv⟩, rfl, rfl⟩ | ⟨c, ⟨hc, hv⟩, rfl, rfl⟩)
    · exact ⟨rfl, Or.inl ⟨hc, hv⟩⟩
    · exact ⟨rfl, Or.inr ⟨hc, hv⟩⟩
  · rintro ⟨rfl, (⟨hc, hv⟩ | ⟨hc, hv⟩)⟩
    · exact Or.inl ⟨mt, ⟨hc, hv⟩, rfl, rfl⟩
    · exact Or.inr ⟨mt, ⟨hc, hv⟩, rfl, rfl⟩

lemma mem_legal_moves {e : GameEngine} {m : Move} :
    m ∈ e.legal_moves ↔
      ∃ x y p, x < 8 ∧ y < 8 ∧ bget e.board x y = some p ∧ p.color = e.current_turn ∧
        m ∈ e.valid_moves_from ⟨x, y⟩ := by
  unfold GameEngine.legal_moves
  simp only [List.mem_flatMap, List.mem_range]
  constructor
  · rintro ⟨x, hx, y, hy, hm⟩
    split at hm
    next piece hb =>
      split at hm
      next hcol => exact ⟨x, y, piece, hx, hy, hb, hcol, hm⟩
      next => simp at hm
    next => simp at hm
  · rintro ⟨x, y, p, hx, hy, hb, hcol, hm⟩
    refine ⟨x, hx, y, hy, ?_⟩
    rw [hb]
    show m ∈ if p.color = e.current_turn then e.valid_moves_from ⟨x, y⟩ else []
    rw [if_pos hcol]
    exact hm

/-! Shape of a legal move -/

lemma legal_move_shape {e : GameEngine} {m : Move} (hm : m ∈ e.legal_moves) :
    ∃ p, bget e.board m.from_.x m.from_.y = some p ∧ p.color = e.current_turn ∧
      m.from_.on_board = true ∧ m.to_.on_board = true ∧ m.to_.x ≠ m.from_.x ∧
      ((∃ c, GameEngine.midpiece_coordinate m.from_.x m.from_.y m.to_.x m.to_.y = some c ∧
          ∃ q, bget e.board c.x c.y = some q ∧ q.color ≠ p.color)
        ∨ (m.to_ ∈ m.from_.move_targets_from ∧
            GameEngine.midpiece_coordinate m.from_.x m.from_.y m.to_.x m.to_.y = none ∧
            bget e.board m.to_.x m.to_.y = none)) := by
  rcases mem_legal_moves.mp hm with ⟨x, y, p, hx, hy, hb, hcol, hmem⟩
  obtain ⟨mf, mt⟩ := m
  have hploc : bget e.board (⟨x, y⟩ : Coordinate).x (⟨x, y⟩ : Coordinate).y = some p := hb
  rcases (mem_valid_moves_from hploc).mp hmem with ⟨hfrom, hcase⟩
  dsimp only at hfrom
  subst hfrom
  have hfb : (⟨x, y⟩ : Coordinate).on_board = true := by
    simp only [Coordinate.on_board, decide_eq_true_eq]
    omega
  rcases hcase with ⟨hc, hv⟩ | ⟨hc, hv⟩
  · rcases (valid_jump_iff e p ⟨x, y⟩ mt).mp hv with ⟨_, htb, c, q, hmid, hq, hqcol⟩
    exact ⟨p, hb, hcol, hfb, htb,
      by have := midpiece_coordinate_tx_ne hmid; exact this,
      Or.inl ⟨c, hmid, q, hq, hqcol⟩⟩
  · rcases (valid_move_iff e p ⟨x, y⟩ mt).mp hv with ⟨_, htb, hdest, _⟩
    exact ⟨p, hb, hcol, hfb, htb, move_target_ne_x hc,
      Or.inr ⟨hc, midpiece_coordinate_of_move_target hc, hdest⟩⟩

/-! Full characterization of `move_piece` on a legal move -/

lemma move_piece_spec {e : GameEngine} {m : Move} {p : GamePiece}
    (hm : m ∈ e.legal_moves) (hp : bget e.board m.from_.x m.from_.y = some p) :
    (e.move_piece m).2 = MoveStatus.ok { move_made := m, crowned := GameEngine.should_crown p m.to_ }
    ∧ (e.move_piece m).1.current_turn =
        (if e.current_turn = PieceColor.Black then PieceColor.White else PieceColor.Black)
    ∧ (e.move_piece m).1.move_count = e.move_count + 1
    ∧ bget (e.move_piece m).1.board m.from_.x m.from_.y = none
    ∧ bget (e.move_piece m).1.board m.to_.x m.to_.y =
        some (if GameEngine.should_crown p m.to_ then GamePiece.crownedOf p else p)
    ∧ (∀ c : Coordinate,
        GameEngine.midpiece_coordinate m.from_.x m.from_.y m.to_.x m.to_.y = some c →
          bget (e.move_piece m).1.board c.x c.y = none)
    ∧ (∀ i j : Nat, ¬(i = m.from_.x ∧ j = m.from_.y) → ¬(i = m.to_.x ∧ j = m.to_.y) →
        (∀ c : Coordinate,
            GameEngine.midpiece_coordinate m.from_.x m.from_.y m.to_.x m.to_.y = some c →
              ¬(i = c.x ∧ j = c.y)) →
        bget (e.move_piece m).1.board i j = bget e.board i j) := by
  obtain ⟨p2, hp2, hcol, hfb, htb, hxne, hmidcase⟩ := legal_move_shape hm
  rw [hp] at hp2
  obtain rfl := Option.some.inj hp2
  obtain ⟨hfx, hfy⟩ := on_board_lt hfb
  obtain ⟨htx, hty⟩ := on_board_lt htb
  have hntf : ¬(m.to_.x = m.from_.x ∧ m.to_.y = m.from_.y) := fun hh => hxne hh.1
  have hnft : ¬(m.from_.x = m.to_.x ∧ m.from_.y = m.to_.y) := fun hh => hxne hh.1.symm
  have hFno : ¬((false : Bool) = true) := by simp
  have hFyes : (true : Bool) = true := rfl
  unfold GameEngine.move_piece
  rw [if_pos hm, hp]
  dsimp only
  cases hmc : GameEngine.midpiece_coordinate m.from_.x m.from_.y m.to_.x m.to_.y with
  | some c =>
      dsimp only
      obtain ⟨hcf, hct⟩ := midpiece_coordinate_x_ne hmc
      obtain ⟨hcx, hcy⟩ := midpiece_coordinate_bounds hmc ⟨by omega, by omega⟩ ⟨by omega, by omega⟩
      have hgf : ¬(c.x = m.from_.x ∧ c.y = m.from_.y) := fun hh => hcf hh.1
      have hgt : ¬(c.x = m.to_.x ∧ c.y = m.to_.y) := fun hh => hct hh.1
      refine ⟨?_, ?_, ?_, ?_, ?_, ?_, ?_⟩
      · cases hcr : GameEngine.should_crown p m.to_
        · rw [if_neg hFno]
          try rfl
        · rw [if_pos hFyes]
          try unfold GameEngine.crown_piece
          try dsimp only [GameEngine.advance_turn]
          try rw [bget_bset_ne _ _ _ _ _ _ hntf, bget_bset_same _ _ _ _ htx hty]
          try rfl
      · cases hcr : GameEngine.should_crown p m.to_
        · rw [if_neg hFno]
          try rfl
        · rw [if_pos hFyes]
          try unfold GameEngine.crown_piece
          try dsimp only [GameEngine.advance_turn]
          try rw [bget_bset_ne _ _ _ _ _ _ hntf, bget_bset_same _ _ _ _ htx hty]
          try rfl
      · cases hcr : GameEngine.should_crown p m.to_
        · rw [if_neg hFno]
          try rfl
        · rw [if_pos hFyes]
          try unfold GameEngine.crown_piece
          try dsimp only [GameEngine.advance_turn]
          try rw [bget_bset_ne _ _ _ _ _ _ hntf, bget_bset_same _ _ _ _ htx hty]
          try rfl
      · cases hcr : GameEngine.should_crown p m.to_
        · rw [if_neg hFno]
          dsimp only [GameEngine.advance_turn]
          exact bget_bset_same _ _ _ _ hfx hfy
        · rw [if_pos hFyes]
          unfold GameEngine.crown_piece
          dsimp only [GameEngine.advance_turn]
          rw [bget_bset_ne _ _ _ _ _ _ hntf, bget_bset_same _ _ _ _ htx hty]
          dsimp only
          rw [bget_bset_ne _ _ _ _ _ _ hnft]
          exact bget_bset_same _ _ _ _ hfx hfy
      · cases hcr : GameEngine.should_crown p m.to_
        · rw [if_neg hFno]
          dsimp only [GameEngine.advance_turn]
          rw [bget_bset_ne _ _ _ _ _ _ hntf]
          exact bget_bset_same _ _ _ _ htx hty
        · rw [if_pos hFyes]
          unfold GameEngine.crown_piece
          dsimp only [GameEngine.advance_turn]
          rw [bget_bset_ne _ _ _ _ _ _ hntf, bget_bset_same _ _ _ _ htx hty]
          dsimp only
          exact bget_bset_same _ _ _ _ htx hty
      · intro c2 hc2
        injection hc2 with hcc
        subst hcc
        cases hcr : GameEngine.should_crown p m.to_
        · rw [if_neg hFno]
          dsimp only [GameEngine.advance_turn]
          rw [bget_bset_ne _ _ _ _ _ _ hgf, bget_bset_ne _ _ _ _ _ _ hgt]
          exact bget_bset_same _ _ _ _ hcx hcy
        · rw [if_pos hFyes]
          unfold GameEngine.crown_piece
          dsimp only [GameEngine.advance_turn]
          rw [bget_bset_ne _ _ _ _ _ _ hntf, bget_bset_same _ _ _ _ htx hty]
          dsimp only
          rw [bget_bset_ne _ _ _ _ _ _ hgt, bget_bset_ne _ _ _ _ _ _ hgf,
            bget_bset_ne _ _ _ _ _ _ hgt]
          exact bget_bset_same _ _ _ _ hcx hcy
      · intro i j hni hnj hnc
        have hmcne : ¬(i = c.x ∧ j = c.y) := hnc c rfl
        cases hcr : GameEngine.should_crown p m.to_
        · rw [if_neg hFno]
          dsimp only [GameEngine.advance_turn]
          rw [bget_bset_ne _ _ _ _ _ _ hni, bget_bset_ne _ _ _ _ _ _ hnj,
            bget_bset_ne _ _ _ _ _ _ hmcne]
        · rw [if_pos hFyes]
          unfold GameEngine.crown_piece
          dsimp only [GameEngine.advance_turn]
          rw [bget_bset_ne _ _ _ _ _ _ hntf, bget_bset_same _ _ _ _ htx hty]
          dsimp only
          rw [bget_bset_ne _ _ _ _ _ _ hnj, bget_bset_ne _ _ _ _ _ _ hni,
            bget_bset_ne _ _ _ _ _ _ hnj, bget_bset_ne _ _ _ _ _ _ hmcne]
  | none =>
      dsimp only
      refine ⟨?_, ?_, ?_, ?_, ?_, ?_, ?_⟩
      · cases hcr : GameEngine.should_crown p m.to_
        · rw [if_neg hFno]
          try rfl
        · rw [if_pos hFyes]
          try unfold GameEngine.crown_piece
          try dsimp only [GameEngine.advance_turn]
          try rw [bget_bset_ne _ _ _ _ _ _ hntf, bget_bset_same _ _ _ _ htx hty]
          try rfl
      · cases hcr : GameEngine.should_crown p m.to_
        · rw [if_neg hFno]
          try rfl
        · rw [if_pos hFyes]
          try unfold GameEngine.crown_piece
          try dsimp only [GameEngine.advance_turn]
          try rw [bget_bset_ne _ _ _ _ _ _ hntf, bget_bset_same _ _ _ _ htx hty]
          try rfl
      · cases hcr : GameEngine.should_crown p m.to_
        · rw [if_neg hFno]
          try rfl
        · rw [if_pos hFyes]
          try unfold GameEngine.crown_piece
          try dsimp only [GameEngine.advance_turn]
          try rw [bget_bset_ne _ _ _ _ _ _ hntf, bget_bset_same _ _ _ _ htx hty]
          try rfl
      · cases hcr : GameEngine.should_crown p m.to_
        · rw [if_neg hFno]
          dsimp only [GameEngine.advance_turn]
          exact bget_bset_same _ _ _ _ hfx hfy
        · rw [if_pos hFyes]
          unfold GameEngine.crown_piece
          dsimp only [GameEngine.advance_turn]
          rw [bget_bset_ne _ _ _ _ _ _ hntf, bget_bset_same _ _ _ _ htx hty]
          dsimp only
          rw [bget_bset_ne _ _ _ _ _ _ hnft]
          exact bget_bset_same _ _ _ _ hfx hfy
      · cases hcr : GameEngine.should_crown p m.to_
        · rw [if_neg hFno]
          dsimp only [GameEngine.advance_turn]
          rw [bget_bset_ne _ _ _ _ _ _ hntf]
          exact bget_bset_same _ _ _ _ htx hty
        · rw [if_pos hFyes]
          unfold GameEngine.crown_piece
          dsimp only [GameEngine.advance_turn]
          rw [bget_bset_ne _ _ _ _ _ _ hntf, bget_bset_same _ _ _ _ htx hty]
          dsimp only
          exact bget_bset_same _ _ _ _ htx hty
      · intro c2 hc2
        exact Option.noConfusion hc2
      · intro i j hni hnj _
        cases hcr : GameEngine.should_crown p m.to_
        · rw [if_neg hFno]
          dsimp only [GameEngine.advance_turn]
          rw [bget_bset_ne _ _ _ _ _ _ hni, bget_bset_ne _ _ _ _ _ _ hnj]
        · rw [if_pos hFyes]
          unfold GameEngine.crown_piece
          dsimp only [GameEngine.advance_turn]
          rw [bget_bset_ne _ _ _ _ _ _ hntf, bget_bset_same _ _ _ _ htx hty]
          dsimp only
          rw [bget_bset_ne _ _ _ _ _ _ hnj, bget_bset_ne _ _ _ _ _ _ hni,
            bget_bset_ne _ _ _ _ _ _ hnj]

lemma move_piece_illegal {e : GameEngine} {m : Move} (hm : m ∉ e.legal_moves) :
    e.move_piece m = (e, MoveStatus.illegal) := by
  unfold GameEngine.move_piece
  rw [if_neg hm]

/-! Concrete scenario states -/

/-- A board with no pieces, used to build small scenarios. -/
def emptyBoard : Board := fun _ _ => none

/-- The initial position with an extra white piece on (1,4): the jump scenario
from the source's own test `jump_moves_validation_success`. -/
def engineJump : GameEngine :=
  { GameEngine.new with
    board := bset GameEngine.new.board 1 4 (some { color := PieceColor.White, crowned := false }) }

/-- The jump (0,5) → (2,3) over the white piece on (1,4). -/
def jumpMove : Move := { from_ := ⟨0, 5⟩, to_ := ⟨2, 3⟩ }

/-- A lone un-crowned black piece one diagonal step away from row 0. -/
def engineCrown : GameEngine :=
  { board := bset emptyBoard 1 1 (some { color := PieceColor.Black, crowned := false })
    current_turn := PieceColor.Black
    move_count := 0 }

/-- A jump scenario whose destination square is itself occupied: black on
(0,5), white on the midpoint (1,4), and another white piece on the jump
destination (2,3). -/
def engineBlockedJump : GameEngine :=
  { board :=
      bset (bset (bset emptyBoard 0 5 (some { color := PieceColor.Black, crowned := false }))
          1 4 (some { color := PieceColor.White, crowned := false }))
        2 3 (some { color := PieceColor.White, crowned := false })
    current_turn := PieceColor.Black
    move_count := 0 }

/-! Claim theorems -/

/-- C3: `valid_jump` is false when either coordinate fails `on_board`, and
otherwise true exactly when the midpoint square between `from` and `to` (for
the four canonical ±2/±2 deltas) holds a piece of the opposite color; the
occupancy of the destination square has no effect on the result. -/
theorem C3_valid_jump_spec (e : GameEngine) (p : GamePiece) (f t : Coordinate) :
    (e.valid_jump p f t = true ↔
      f.on_board = true ∧ t.on_board = true ∧
        ∃ c q, GameEngine.midpiece_coordinate f.x f.y t.x t.y = some c ∧
          bget e.board c.x c.y = some q ∧ q.color ≠ p.color)
    ∧ (∀ v : Option GamePiece,
        GameEngine.valid_jump { e with board := bset e.board t.x t.y v } p f t
          = e.valid_jump p f t) := by
  refine ⟨valid_jump_iff e p f t, ?_⟩
  intro v
  unfold GameEngine.valid_jump GameEngine.midpiece
  cases hc : GameEngine.midpiece_coordinate f.x f.y t.x t.y with
  | none => rfl
  | some c =>
      have hne : ¬(c.x = t.x ∧ c.y = t.y) := fun hh => (midpiece_coordinate_x_ne hc).2 hh.1
      dsimp only
      rw [bget_bset_ne _ _ _ _ _ _ hne]

/-- C4: `valid_move` is false when either coordinate fails `on_board` or the
destination is occupied, and otherwise true exactly when the direction is
allowed: White toward increasing y, Black toward decreasing y, and a crowned
piece additionally in the opposite direction. -/
theorem C4_valid_move_spec (e : GameEngine) (p : GamePiece) (f t : Coordinate) :
    e.valid_move p f t = true ↔
      f.on_board = true ∧ t.on_board = true ∧ bget e.board t.x t.y = none ∧
        ((f.y < t.y ∧ (p.color = PieceColor.White ∨ (p.color = PieceColor.Black ∧ p.crowned = true)))
          ∨ (t.y < f.y ∧ (p.color = PieceColor.Black ∨ (p.color = PieceColor.White ∧ p.crowned = true)))) :=
  valid_move_iff e p f t

/-- C9: every move produced by `legal_moves` starts on a square holding a
piece of the side to move, has both endpoints on the board, any midpoint is
in bounds, and applying it through `move_piece` never reaches the `unwrap`
panic branch. -/
theorem C9_legal_moves_safety (e : GameEngine) (m : Move) (hm : m ∈ e.legal_moves) :
    (∃ p, bget e.board m.from_.x m.from_.y = some p ∧ p.color = e.current_turn)
      ∧ m.from_.on_board = true ∧ m.to_.on_board = true
      ∧ (∀ c : Coordinate,
          GameEngine.midpiece_coordinate m.from_.x m.from_.y m.to_.x m.to_.y = some c →
            c.x < 8 ∧ c.y < 8)
      ∧ (e.move_piece m).2 ≠ MoveStatus.panic := by
  obtain ⟨p, hp, hcol, hfb, htb, hxne, hmid⟩ := legal_move_shape hm
  obtain ⟨hfx, hfy⟩ := on_board_lt hfb
  obtain ⟨htx, hty⟩ := on_board_lt htb
  refine ⟨⟨p, hp, hcol⟩, hfb, htb, ?_, ?_⟩
  · intro c hc
    exact midpiece_coordinate_bounds hc ⟨by omega, by omega⟩ ⟨by omega, by omega⟩
  · obtain ⟨h1, _⟩ := move_piece_spec hm hp
    rw [h1]
    exact fun hh => MoveStatus.noConfusion hh

/-- C9 witness: the safety conclusions hold concretely for the first legal
move of the initial position. -/
theorem C9_witness :
    (∃ p, bget GameEngine.new.board 0 5 = some p ∧ p.color = GameEngine.new.current_turn)
      ∧ (⟨0, 5⟩ : Coordinate).on_board = true ∧ (⟨1, 4⟩ : Coordinate).on_board = true
      ∧ (∀ c : Coordinate,
          GameEngine.midpiece_coordinate 0 5 1 4 = some c → c.x < 8 ∧ c.y < 8)
      ∧ (GameEngine.new.move_piece ⟨⟨0, 5⟩, ⟨1, 4⟩⟩).2 ≠ MoveStatus.panic :=
  C9_legal_moves_safety GameEngine.new ⟨⟨0, 5⟩, ⟨1, 4⟩⟩ (by decide)

/-- C10: a legal jump whose destination is occupied is applied anyway: the
destination cell is overwritten with the moving piece and the midpoint is
cleared, so the piece that stood on the destination disappears from the
board. -/
theorem C10_jump_overwrites_destination (e : GameEngine) (m : Move) (p q : GamePiece)
    (c : Coordinate) (hm : m ∈ e.legal_moves)
    (hp : bget e.board m.from_.x m.from_.y = some p)
    (hmid : GameEngine.midpiece_coordinate m.from_.x m.from_.y m.to_.x m.to_.y = some c)
    (_hq : bget e.board m.to_.x m.to_.y = some q) :
    (e.move_piece m).2 = MoveStatus.ok { move_made := m, crowned := GameEngine.should_crown p m.to_ }
      ∧ bget (e.move_piece m).1.board m.to_.x m.to_.y =
          some (if GameEngine.should_crown p m.to_ then GamePiece.crownedOf p else p)
      ∧ bget (e.move_piece m).1.board c.x c.y = none := by
  obtain ⟨h1, _, _, _, h5, h6, _⟩ := move_piece_spec hm hp
  exact ⟨h1, h5, h6 c hmid⟩

/-- C10 witness: in `engineBlockedJump` the jump (0,5) → (2,3) is legal even
though (2,3) holds a white piece; applying it leaves the black piece on
(2,3) (the white piece there is gone) and clears the captured (1,4). -/
theorem C10_witness :
    bget engineBlockedJump.board 2 3 = some { color := PieceColor.White, crowned := false }
      ∧ ((engineBlockedJump.move_piece jumpMove).2 =
            MoveStatus.ok { move_made := jumpMove, crowned := false }
        ∧ bget (engineBlockedJump.move_piece jumpMove).1.board 2 3 =
            some { color := PieceColor.Black, crowned := false }
        ∧ bget (engineBlockedJump.move_piece jumpMove).1.board 1 4 = none) :=
  ⟨by decide,
   C10_jump_overwrites_destination engineBlockedJump jumpMove
     { color := PieceColor.Black, crowned := false } { color := PieceColor.White, crowned := false }
     ⟨1, 4⟩ (by decide) (by decide) (by decide) (by decide)⟩

/-- C1 counterexample: on the jump scenario, the legal jump (0,5) → (2,3)
also changes the midpoint cell (1,4), which is neither the source nor the
destination — so a legal move does not always mutate exactly two cells. -/
theorem C1_counterexample :
    jumpMove ∈ engineJump.legal_moves
      ∧ ¬((1 : Nat) = jumpMove.from_.x ∧ (4 : Nat) = jumpMove.from_.y)
      ∧ ¬((1 : Nat) = jumpMove.to_.x ∧ (4 : Nat) = jumpMove.to_.y)
      ∧ bget (engineJump.move_piece jumpMove).1.board 1 4 ≠ bget engineJump.board 1 4 := by
  decide

/-- C1 (amended): applying `move_piece` with a legal move clears the source
cell, sets the destination cell to the moved piece (crowned when the
promotion rule applies), clears the midpoint cell when the move is a jump,
leaves every other cell unchanged, toggles `current_turn` and increments
`move_count` by exactly 1; an illegal move returns failure and leaves the
whole engine state unchanged. -/
theorem C1_move_piece_frame (e : GameEngine) (m : Move) :
    (m ∈ e.legal_moves →
      ∃ p, bget e.board m.from_.x m.from_.y = some p
        ∧ (e.move_piece m).2 =
            MoveStatus.ok { move_made := m, crowned := GameEngine.should_crown p m.to_ }
        ∧ (e.move_piece m).1.current_turn =
            (if e.current_turn = PieceColor.Black then PieceColor.White else PieceColor.Black)
        ∧ (e.move_piece m).1.move_count = e.move_count + 1
        ∧ bget (e.move_piece m).1.board m.from_.x m.from_.y = none
        ∧ bget (e.move_piece m).1.board m.to_.x m.to_.y =
            some (if GameEngine.should_crown p m.to_ then GamePiece.crownedOf p else p)
        ∧ (∀ c : Coordinate,
            GameEngine.midpiece_coordinate m.from_.x m.from_.y m.to_.x m.to_.y = some c →
              bget (e.move_piece m).1.board c.x c.y = none)
        ∧ (∀ i j : Nat, ¬(i = m.from_.x ∧ j = m.from_.y) → ¬(i = m.to_.x ∧ j = m.to_.y) →
            (∀ c : Coordinate,
                GameEngine.midpiece_coordinate m.from_.x m.from_.y m.to_.x m.to_.y = some c →
                  ¬(i = c.x ∧ j = c.y)) →
            bget (e.move_piece m).1.board i j = bget e.board i j))
    ∧ (m ∉ e.legal_moves → e.move_piece m = (e, MoveStatus.illegal)) := by
  constructor
  · intro hm
    obtain ⟨p, hp, -, -, -, -, -⟩ := legal_move_shape hm
    obtain ⟨h1, h2, h3, h4, h5, h6, h7⟩ := move_piece_spec hm hp
    exact ⟨p, hp, h1, h2, h3, h4, h5, h6, h7⟩
  · exact fun hm => move_piece_illegal hm

/-- C1 witness: the amended frame conditions hold for the legal simple move
(0,5) → (1,4) of the initial position and for the legal jump (0,5) → (2,3)
of the jump scenario (whose midpoint (1,4) is cleared), and the illegal
move (0,0) → (1,1) is rejected with the engine unchanged. -/
theorem C1_witness :
    (∃ p, bget GameEngine.new.board 0 5 = some p
      ∧ (GameEngine.new.move_piece ⟨⟨0, 5⟩, ⟨1, 4⟩⟩).2 =
          MoveStatus.ok { move_made := ⟨⟨0, 5⟩, ⟨1, 4⟩⟩, crowned := GameEngine.should_crown p ⟨1, 4⟩ }
      ∧ (GameEngine.new.move_piece ⟨⟨0, 5⟩, ⟨1, 4⟩⟩).1.current_turn =
          (if GameEngine.new.current_turn = PieceColor.Black then PieceColor.White else PieceColor.Black)
      ∧ (GameEngine.new.move_piece ⟨⟨0, 5⟩, ⟨1, 4⟩⟩).1.move_count = GameEngine.new.move_count + 1
      ∧ bget (GameEngine.new.move_piece ⟨⟨0, 5⟩, ⟨1, 4⟩⟩).1.board 0 5 = none
      ∧ bget (GameEngine.new.move_piece ⟨⟨0, 5⟩, ⟨1, 4⟩⟩).1.board 1 4 =
          some (if GameEngine.should_crown p ⟨1, 4⟩ then GamePiece.crownedOf p else p)
      ∧ (∀ c : Coordinate, GameEngine.midpiece_coordinate 0 5 1 4 = some c →
          bget (GameEngine.new.move_piece ⟨⟨0, 5⟩, ⟨1, 4⟩⟩).1.board c.x c.y = none)
      ∧ (∀ i j : Nat, ¬(i = 0 ∧ j = 5) → ¬(i = 1 ∧ j = 4) →
          (∀ c : Coordinate, GameEngine.midpiece_coordinate 0 5 1 4 = some c →
            ¬(i = c.x ∧ j = c.y)) →
          bget (GameEngine.new.move_piece ⟨⟨0, 5⟩, ⟨1, 4⟩⟩).1.board i j = bget GameEngine.new.board i j))
    ∧ GameEngine.new.move_piece ⟨⟨0, 0⟩, ⟨1, 1⟩⟩ = (GameEngine.new, MoveStatus.illegal)
    ∧ (∃ p, bget engineJump.board 0 5 = some p
      ∧ (engineJump.move_piece jumpMove).2 =
          MoveStatus.ok { move_made := jumpMove, crowned := GameEngine.should_crown p ⟨2, 3⟩ }
      ∧ (engineJump.move_piece jumpMove).1.current_turn =
          (if engineJump.current_turn = PieceColor.Black then PieceColor.White else PieceColor.Black)
      ∧ (engineJump.move_piece jumpMove).1.move_count = engineJump.move_count + 1
      ∧ bget (engineJump.move_piece jumpMove).1.board 0 5 = none
      ∧ bget (engineJump.move_piece jumpMove).1.board 2 3 =
          some (if GameEngine.should_crown p ⟨2, 3⟩ then GamePiece.crownedOf p else p)
      ∧ (∀ c : Coordinate, GameEngine.midpiece_coordinate 0 5 2 3 = some c →
          bget (engineJump.move_piece jumpMove).1.board c.x c.y = none)
      ∧ (∀ i j : Nat, ¬(i = 0 ∧ j = 5) → ¬(i = 2 ∧ j = 3) →
          (∀ c : Coordinate, GameEngine.midpiece_coordinate 0 5 2 3 = some c →
            ¬(i = c.x ∧ j = c.y)) →
          bget (engineJump.move_piece jumpMove).1.board i j = bget engineJump.board i j)) :=
  ⟨(C1_move_piece_frame GameEngine.new ⟨⟨0, 5⟩, ⟨1, 4⟩⟩).1 (by decide),
   (C1_move_piece_frame GameEngine.new ⟨⟨0, 0⟩, ⟨1, 1⟩⟩).2 (by decide),
   (C1_move_piece_frame engineJump jumpMove).1 (by decide)⟩

/-- C2: `legal_moves` scans squares with x as the outer loop and y as the
inner loop over [0,7], appending for each square holding a piece of the
side to move its valid jumps (in jump-target order) followed by its valid
simple moves (in move-target order); on the initial position it returns
exactly the seven listed Black moves in that order. -/
theorem C2_legal_moves_order :
    (∀ e : GameEngine, e.legal_moves =
      (List.range 8).flatMap fun x => (List.range 8).flatMap fun y =>
        match bget e.board x y with
        | some piece =>
            if piece.color = e.current_turn then
              (((Coordinate.mk x y).jump_targets_from.filter
                  (fun coord => e.valid_jump piece ⟨x, y⟩ coord)).map
                  (fun coord => { from_ := ⟨x, y⟩, to_ := coord }))
                ++ (((Coordinate.mk x y).move_targets_from.filter
                  (fun coord => e.valid_move piece ⟨x, y⟩ coord)).map
                  (fun coord => { from_ := ⟨x, y⟩, to_ := coord }))
            else []
        | none => [])
    ∧ GameEngine.new.legal_moves =
        [⟨⟨0, 5⟩, ⟨1, 4⟩⟩, ⟨⟨2, 5⟩, ⟨3, 4⟩⟩, ⟨⟨2, 5⟩, ⟨1, 4⟩⟩, ⟨⟨4, 5⟩, ⟨5, 4⟩⟩,
         ⟨⟨4, 5⟩, ⟨3, 4⟩⟩, ⟨⟨6, 5⟩, ⟨7, 4⟩⟩, ⟨⟨6, 5⟩, ⟨5, 4⟩⟩] := by
  constructor
  · intro e
    unfold GameEngine.legal_moves
    refine congrArg _ (funext fun col => congrArg _ (funext fun row => ?_))
    cases hb : bget e.board col row with
    | none => rfl
    | some piece =>
        dsimp only
        by_cases hcol : piece.color = e.current_turn
        · simp only [if_pos hcol]
          unfold GameEngine.valid_moves_from
          dsimp only
          rw [hb]
        · simp only [if_neg hcol]
  · decide

/-- C5: a legal move landing on row 0 with a Black piece (or row 7 with a
White piece) leaves the crowned form of the piece on the destination and
reports `crowned = true`; any other destination reports `crowned = false`
and leaves the piece value unchanged (so a previously un-crowned piece
stays un-crowned). -/
theorem C5_promotion (e : GameEngine) (m : Move) (p : GamePiece)
    (hm : m ∈ e.legal_moves) (hp : bget e.board m.from_.x m.from_.y = some p) :
    (((m.to_.y = 0 ∧ p.color = PieceColor.Black) ∨ (m.to_.y = 7 ∧ p.color = PieceColor.White)) →
      (e.move_piece m).2 = MoveStatus.ok { move_made := m, crowned := true }
        ∧ bget (e.move_piece m).1.board m.to_.x m.to_.y =
            some { color := p.color, crowned := true })
    ∧ (¬((m.to_.y = 0 ∧ p.color = PieceColor.Black) ∨ (m.to_.y = 7 ∧ p.color = PieceColor.White)) →
      (e.move_piece m).2 = MoveStatus.ok { move_made := m, crowned := false }
        ∧ bget (e.move_piece m).1.board m.to_.x m.to_.y = some p) := by
  obtain ⟨h1, -, -, -, h5, -, -⟩ := move_piece_spec hm hp
  constructor
  · intro hcond
    have hsc : GameEngine.should_crown p m.to_ = true := by
      simp only [GameEngine.should_crown, decide_eq_true_eq]
      exact hcond
    rw [hsc] at h1 h5
    rw [if_pos rfl] at h5
    exact ⟨h1, h5⟩
  · intro hcond
    have hsc : GameEngine.should_crown p m.to_ = false := by
      simp only [GameEngine.should_crown, decide_eq_false_iff_not]
      exact hcond
    rw [hsc] at h1 h5
    rw [if_neg (by simp)] at h5
    exact ⟨h1, h5⟩

/-- C5 witness: the lone black piece moving (1,1) → (2,0) is crowned on
arrival, and the opening move (0,5) → (1,4) of the initial position is not. -/
theorem C5_witness :
    ((engineCrown.move_piece ⟨⟨1, 1⟩, ⟨2, 0⟩⟩).2 =
        MoveStatus.ok { move_made := ⟨⟨1, 1⟩, ⟨2, 0⟩⟩, crowned := true }
      ∧ bget (engineCrown.move_piece ⟨⟨1, 1⟩, ⟨2, 0⟩⟩).1.board 2 0 =
          some { color := PieceColor.Black, crowned := true })
    ∧ ((GameEngine.new.move_piece ⟨⟨0, 5⟩, ⟨1, 4⟩⟩).2 =
        MoveStatus.ok { move_made := ⟨⟨0, 5⟩, ⟨1, 4⟩⟩, crowned := false }
      ∧ bget (GameEngine.new.move_piece ⟨⟨0, 5⟩, ⟨1, 4⟩⟩).1.board 1 4 =
          some { color := PieceColor.Black, crowned := false }) :=
  ⟨(C5_promotion engineCrown ⟨⟨1, 1⟩, ⟨2, 0⟩⟩ { color := PieceColor.Black, crowned := false }
      (by decide) (by decide)).1 (by decide),
   (C5_promotion GameEngine.new ⟨⟨0, 5⟩, ⟨1, 4⟩⟩ { color := PieceColor.Black, crowned := false }
      (by decide) (by decide)).2 (by decide)⟩

/-- C6: applying a legal jump (a move with a midpoint per
`midpiece_coordinate`) clears the midpoint cell in addition to clearing the
source and setting the destination; a legal simple move (no midpoint)
changes no cell beyond the source and the destination. -/
theorem C6_capture_clears_midpoint (e : GameEngine) (m : Move) (p : GamePiece) (c : Coordinate)
    (hm : m ∈ e.legal_moves) (hp : bget e.board m.from_.x m.from_.y = some p) :
    (GameEngine.midpiece_coordinate m.from_.x m.from_.y m.to_.x m.to_.y = some c →
      bget (e.move_piece m).1.board c.x c.y = none
        ∧ bget (e.move_piece m).1.board m.from_.x m.from_.y = none
        ∧ bget (e.move_piece m).1.board m.to_.x m.to_.y =
            some (if GameEngine.should_crown p m.to_ then GamePiece.crownedOf p else p))
    ∧ (GameEngine.midpiece_coordinate m.from_.x m.from_.y m.to_.x m.to_.y = none →
      ∀ i j : Nat, ¬(i = m.from_.x ∧ j = m.from_.y) → ¬(i = m.to_.x ∧ j = m.to_.y) →
        bget (e.move_piece m).1.board i j = bget e.board i j) := by
  obtain ⟨-, -, -, h4, h5, h6, h7⟩ := move_piece_spec hm hp
  refine ⟨fun hmid => ⟨h6 c hmid, h4, h5⟩, fun hmid i j hni hnj => h7 i j hni hnj ?_⟩
  intro c2 hc2
  rw [hmid] at hc2
  exact Option.noConfusion hc2

/-- C6 witness: the jump (0,5) → (2,3) over (1,4) clears (1,4), clears the
source and puts the black piece on (2,3); the simple move (0,5) → (1,4) of
the initial position leaves an unrelated cell such as (2,5) unchanged. -/
theorem C6_witness :
    (bget (engineJump.move_piece jumpMove).1.board 1 4 = none
      ∧ bget (engineJump.move_piece jumpMove).1.board 0 5 = none
      ∧ bget (engineJump.move_piece jumpMove).1.board 2 3 =
          some (if GameEngine.should_crown { color := PieceColor.Black, crowned := false } ⟨2, 3⟩
            then GamePiece.crownedOf { color := PieceColor.Black, crowned := false }
            else { color := PieceColor.Black, crowned := false }))
    ∧ bget (GameEngine.new.move_piece ⟨⟨0, 5⟩, ⟨1, 4⟩⟩).1.board 2 5 = bget GameEngine.new.board 2 5 :=
  ⟨(C6_capture_clears_midpoint engineJump jumpMove
      { color := PieceColor.Black, crowned := false } ⟨1, 4⟩ (by decide) (by decide)).1 (by decide),
   (C6_capture_clears_midpoint GameEngine.new ⟨⟨0, 5⟩, ⟨1, 4⟩⟩
      { color := PieceColor.Black, crowned := false } ⟨0, 0⟩ (by decide) (by decide)).2
     (by decide) 2 5 (by decide) (by decide)⟩

/-- C7: the freshly constructed engine has exactly the 12 white and 12
black starting pieces on their listed squares, all other cells empty, every
piece un-crowned, Black to move, and a zero move counter. -/
theorem C7_initial_state :
    (∀ x y : Fin 8, GameEngine.new.board x y =
        (if (x.val, y.val) ∈ [(1, 0), (3, 0), (5, 0), (7, 0), (0, 1), (2, 1), (4, 1), (6, 1),
            (1, 2), (3, 2), (5, 2), (7, 2)] then
          some { color := PieceColor.White, crowned := false }
        else if (x.val, y.val) ∈ [(0, 5), (2, 5), (4, 5), (6, 5), (1, 6), (3, 6), (5, 6), (7, 6),
            (0, 7), (2, 7), (4, 7), (6, 7)] then
          some { color := PieceColor.Black, crowned := false }
        else none))
      ∧ GameEngine.new.current_turn = PieceColor.Black
      ∧ GameEngine.new.move_count = 0
      ∧ (Finset.univ.filter (fun xy : Fin 8 × Fin 8 =>
          GameEngine.new.board xy.1 xy.2 = some { color := PieceColor.White, crowned := false })).card = 12
      ∧ (Finset.univ.filter (fun xy : Fin 8 × Fin 8 =>
          GameEngine.new.board xy.1 xy.2 = some { color := PieceColor.Black, crowned := false })).card = 12 := by
  decide

/-- C8: the boundary `get_piece` returns the bit-flag encoding of the piece
on the square when one is present (Black = 1, White = 2, +4 when crowned,
so a crowned white piece encodes as 6) and the single sentinel -1 both for
an empty on-board square and for an out-of-range coordinate, making the two
cases indistinguishable from the result alone. -/
theorem C8_get_piece_encoding :
    (∀ (e : GameEngine) (x_coord y_coord : Int),
      lib_get_piece e x_coord y_coord =
        (if i32ToUsize x_coord ≤ 7 ∧ i32ToUsize y_coord ≤ 7 then
          match bget e.board (i32ToUsize x_coord) (i32ToUsize y_coord) with
          | some piece => piece.intoI32
          | none => -1
        else -1))
    ∧ (∀ p : GamePiece, p.intoI32 =
        (if p.color = PieceColor.Black then 1 else 2) + (if p.crowned then 4 else 0))
    ∧ GamePiece.intoI32 { color := PieceColor.White, crowned := true } = 6
    ∧ lib_get_piece GameEngine.new 0 3 = -1
    ∧ lib_get_piece GameEngine.new (-1) 0 = -1
    ∧ bget GameEngine.new.board 0 3 = none
    ∧ ¬(i32ToUsize (-1) ≤ 7) := by
  refine ⟨?_, ?_, by decide, by decide, by decide, by decide, by decide⟩
  · intro e x y
    unfold lib_get_piece GameEngine.get_piece
    dsimp only
    by_cases h : i32ToUsize x ≤ 7 ∧ i32ToUsize y ≤ 7
    · rw [if_pos h, if_pos h]
      cases hb : bget e.board (i32ToUsize x) (i32ToUsize y) <;> rfl
    · rw [if_neg h, if_neg h]
  · intro p
    obtain ⟨c, cr⟩ := p
    cases c <;> cases cr <;> rfl
